import Mathlib

/-!
# Verification of the tab-audit cleanup rule engine

Shallow embedding of the cleanup rule engine of the `tab-audit` browser
extension (`src/background/index.ts` and `src/shared/settings.ts`), together
with proofs and refutations of the specification claims about it.

Modelling conventions:
* JS numbers that hold timestamps, timeouts and limits are modelled as `Int`
  (every value occurring here is an integer, and JS integer arithmetic in the
  exercised range is exact).
* Tab identifiers are modelled as `Nat` (Chrome tab ids are non-negative);
  JS truthiness of `tab.id` is "present and nonzero".
* Optional JS fields become `Option`; JS string falsiness is "empty string".
* `new URL(url).hostname` is a host-browser API, not code of this repository;
  it is modelled as an arbitrary parameter `hostname : String → Option String`
  (`none` = the constructor throws).  All theorems quantify over it.
* `Array.prototype.sort` is stable (ES2019) and both comparators used by the
  source are consistent total preorders, so the sort result is the unique
  stable sort; it is embedded as a stable insertion sort (`sortTabs`).
* `Set<number>` with its JS insertion-order iteration is embedded as a
  duplicate-free `List Nat` grown at the tail (`addClose`).
* The engine's effects (closing tabs, notifications, icon changes, the
  `warningActive` latch) are collected in a `RunResult`; the fallible
  collaborators `chrome.storage.local.get` (inside `getSettings`) and
  `chrome.tabs.query` are passed in as `Except Unit` values.
-/

namespace TabAudit

/-- A Chrome tab as the engine reads it: `id`, `url`, `active`,
`lastAccessed` (all but `active` optional in the Chrome API). -/
structure Tab where
  id : Option Nat
  url : Option String
  active : Bool
  lastAccessed : Option Int
deriving DecidableEq, Repr

/-- User settings (`src/shared/settings.ts`, fields the engine reads). -/
structure Settings where
  enabled : Bool
  idleTimeout : Int
  maxTabs : Int
  whitelist : List String
  blacklist : List String
  notificationsEnabled : Bool
deriving DecidableEq, Repr

/-- `DEFAULT_SETTINGS` from `src/shared/settings.ts` (engine-relevant fields). -/
def DEFAULT_SETTINGS : Settings :=
  { enabled := false, idleTimeout := 30, maxTabs := 50,
    whitelist := [], blacklist := [], notificationsEnabled := true }

/-- `getSettings`: merges the storage result over `DEFAULT_SETTINGS`; its
internal `try/catch` returns `DEFAULT_SETTINGS` outright when the storage read
fails.  A successful read merged over the defaults can produce any `Settings`
value, so the success case carries an arbitrary `Settings`. -/
def getSettings (store : Except Unit Settings) : Settings :=
  match store with
  | .ok s => s
  | .error _ => DEFAULT_SETTINGS

/-- JS `String.prototype.endsWith`: the second string is a suffix of the
first (embedded on the character lists). -/
def jsEndsWith (s suffix : String) : Bool :=
  suffix.data.isSuffixOf s.data

/-- `domainMatches` from `src/background/index.ts`:
empty-guard, exact match, then subdomain (`"." + pattern`) suffix match. -/
def domainMatches (domain pattern : String) : Bool :=
  if domain = "" || pattern = "" then false
  else if domain = pattern then true
  else if jsEndsWith domain ("." ++ pattern) then true
  else false

/-- `getDomain`: empty string for a missing/empty url, else the hostname of
the parsed URL, empty string when parsing throws. -/
def getDomain (hostname : String → Option String) (url : Option String) : String :=
  match url with
  | none => ""
  | some u => if u = "" then "" else
      match hostname u with
      | some h => h
      | none => ""

/-- `updateTabActivity`: unconditionally store `now` for `tabId`
(the activity map is modelled as a function `Nat → Option Int`). -/
def updateTabActivity (m : Nat → Option Int) (tabId : Nat) (now : Int) :
    Nat → Option Int :=
  fun k => if k = tabId then some now else m k

/-- `getLastActivity`: the stored record when `tab.id` is truthy (present and
nonzero) and a record exists, else `tab.lastAccessed || 0`. -/
def getLastActivity (m : Nat → Option Int) (tab : Tab) : Int :=
  match tab.id with
  | some tid =>
      if tid ≠ 0 then
        match m tid with
        | some v => v
        | none => tab.lastAccessed.getD 0
      else tab.lastAccessed.getD 0
  | none => tab.lastAccessed.getD 0

/-- `tab.lastAccessed || 0` as used by both sort comparators. -/
def laOf (t : Tab) : Int := t.lastAccessed.getD 0

/-- JS truthiness of `tab.url` (present and non-empty). -/
def urlTruthy (t : Tab) : Option String :=
  match t.url with
  | some u => if u = "" then none else some u
  | none => none

/-- Append a tab to the group of its url key, keeping `Map` insertion order
(first-occurrence order of keys, original order inside each group). -/
def addToGroup : List (String × List Tab) → String → Tab → List (String × List Tab)
  | [], u, t => [(u, [t])]
  | (k, ts) :: rest, u, t =>
      if k = u then (k, ts ++ [t]) :: rest else (k, ts) :: addToGroup rest u t

/-- The `urlMap` of `getDuplicateTabs`: tabs with a truthy url grouped by
exact url string, in `Map` iteration order. -/
def groupByUrl (tabs : List Tab) : List (String × List Tab) :=
  tabs.foldl (fun m t =>
    match urlTruthy t with
    | none => m
    | some u => addToGroup m u t) []

/-- The duplicate-group comparator as a strict "sorts before" test:
active tabs first, then greater `lastAccessed || 0` first. -/
def dupLt (a b : Tab) : Bool :=
  (a.active && !b.active) || ((a.active == b.active) && laOf b < laOf a)

/-- The max-tab comparator as a strict "sorts before" test:
smaller `lastAccessed || 0` first (oldest first). -/
def ascLt (a b : Tab) : Bool := laOf a < laOf b

/-- Stable insertion step: place `x` after every element that strictly
precedes it (elements tied with `x` keep their earlier position only when
they occurred earlier, which here they did not — see `sortTabs`). -/
def insertSorted (lt : Tab → Tab → Bool) (x : Tab) : List Tab → List Tab
  | [] => [x]
  | y :: ys => if lt y x then y :: insertSorted lt x ys else x :: y :: ys

/-- Stable sort by a strict comparator; equals the (unique) result of the
stable `Array.prototype.sort` for a consistent comparator. -/
def sortTabs (lt : Tab → Tab → Bool) : List Tab → List Tab
  | [] => []
  | x :: xs => insertSorted lt x (sortTabs lt xs)

/-- The push filter at the end of each duplicate group:
`if (tab.id && !tab.active) duplicates.push(tab.id)`. -/
def dupPush (t : Tab) : Option Nat :=
  match t.id with
  | some tid => if tid ≠ 0 ∧ t.active = false then some tid else none
  | none => none

/-- `getDuplicateTabs`: group by exact url, and inside every group of size
at least two sort with `dupLt` and flag everything after the first element
(keeper), dropping active tabs and falsy ids. -/
def getDuplicateTabs (tabs : List Tab) : List Nat :=
  (groupByUrl tabs).foldl (fun dups g =>
    if 1 < g.2.length then
      dups ++ ((sortTabs dupLt g.2).drop 1).filterMap dupPush
    else dups) []

/-- Observable outcome of one `applyCleanupRules` run: the batch passed to
`chrome.tabs.remove` (`[]` = not called), whether the close action was
invoked, the titles of created notifications in order, the
`setWarningIcon` calls in order, and the `warningActive` latch after the
run. -/
structure RunResult where
  closedTabs : List Nat
  closeInvoked : Bool
  notifications : List String
  iconEvents : List Bool
  warningActive : Bool
deriving DecidableEq, Repr

/-- The outcome of a run that performs no action and leaves the latch as it
was. -/
def noEffects (warningActive : Bool) : RunResult :=
  { closedTabs := [], closeInvoked := false, notifications := [],
    iconEvents := [], warningActive := warningActive }

/-- `tabsToClose.add(n)`: insertion-ordered set add on a duplicate-free
list. -/
def addClose (s : List Nat) (n : Nat) : List Nat :=
  if n ∈ s then s else s ++ [n]

/-- Whether a tab's domain matches some pattern of `pats`
(`pats.some((p) => domainMatches(domain, p))`). -/
def onList (hostname : String → Option String) (pats : List String) (t : Tab) : Bool :=
  pats.any (fun p => domainMatches (getDomain hostname t.url) p)

/-- The warning check of `applyCleanupRules` (lines 174–192): returns the new
latch, the notifications raised and the icon requests. -/
def warningStep (settings : Settings) (warningActive : Bool) (tabCount : Int) :
    Bool × List String × List Bool :=
  let wt := settings.maxTabs - 2
  if 0 < wt ∧ wt ≤ tabCount then
    if warningActive = false then
      (true, (if settings.notificationsEnabled then ["Tab Warning"] else []), [true])
    else (warningActive, [], [])
  else if tabCount < wt ∧ warningActive = true then (false, [], [false])
  else (warningActive, [], [])

/-- One iteration of the per-tab pass (whitelist, blacklist, idle timeout)
over the accumulated close set. -/
def perTabStep (hostname : String → Option String) (activity : Nat → Option Int)
    (now : Int) (settings : Settings) (acc : List Nat) (tab : Tab) : List Nat :=
  match tab.id with
  | none => acc
  | some tid =>
      if tid = 0 then acc
      else if tab.active then acc
      else if onList hostname settings.whitelist tab then acc
      else if onList hostname settings.blacklist tab then addClose acc tid
      else if getLastActivity activity tab ≠ 0 ∧
          settings.idleTimeout * 60 * 1000 < now - getLastActivity activity tab then
        addClose acc tid
      else acc

/-- The per-tab pass: stages 1–3 folded over the tab snapshot, starting from
the empty close set. -/
def closeAfterPerTab (hostname : String → Option String) (activity : Nat → Option Int)
    (now : Int) (settings : Settings) (tabs : List Tab) : List Nat :=
  tabs.foldl (perTabStep hostname activity now settings) []

/-- One iteration of the duplicate pass: look the id up in the snapshot and
re-verify the found tab is not active and not whitelisted. -/
def dupStep (hostname : String → Option String) (whitelist : List String)
    (allTabs : List Tab) (acc : List Nat) (tid : Nat) : List Nat :=
  match allTabs.find? (fun t => t.id == some tid) with
  | some tab =>
      if tab.active then acc
      else if onList hostname whitelist tab then acc
      else addClose acc tid
  | none => acc

/-- Close set after the duplicate pass (stage 4). -/
def closeAfterDup (hostname : String → Option String) (activity : Nat → Option Int)
    (now : Int) (settings : Settings) (tabs : List Tab) : List Nat :=
  (getDuplicateTabs tabs).foldl (dupStep hostname settings.whitelist tabs)
    (closeAfterPerTab hostname activity now settings tabs)

/-- The max-tab walk (lines 239–248): scan the sorted snapshot, adding each
tab with a truthy id that is not active, not already targeted and not
whitelisted, until `extra` tabs have been added or the list is exhausted. -/
def maxTabLoop (hostname : String → Option String) (whitelist : List String)
    (extra : Int) : List Tab → List Nat → Int → List Nat
  | [], acc, _ => acc
  | t :: ts, acc, closed =>
      if extra ≤ closed then acc
      else
        match t.id with
        | some tid =>
            if tid ≠ 0 ∧ t.active = false ∧ tid ∉ acc then
              if onList hostname whitelist t then
                maxTabLoop hostname whitelist extra ts acc closed
              else maxTabLoop hostname whitelist extra ts (acc ++ [tid]) (closed + 1)
            else maxTabLoop hostname whitelist extra ts acc closed
        | none => maxTabLoop hostname whitelist extra ts acc closed

/-- The max-tab pass (stage 5): if more tabs than `maxTabs` would remain,
walk the snapshot sorted ascending by `lastAccessed || 0` closing the
overshoot.  Note the source has no special case for `maxTabs == 0`. -/
def maxTabPass (hostname : String → Option String) (whitelist : List String)
    (maxTabs : Int) (allTabs : List Tab) (acc : List Nat) : List Nat :=
  if maxTabs < (allTabs.length : Int) - (acc.length : Int) then
    maxTabLoop hostname whitelist ((allTabs.length : Int) - (acc.length : Int) - maxTabs)
      (sortTabs ascLt allTabs) acc 0
  else acc

/-- The engine pipeline once settings (with `enabled` true) and the tab
snapshot are in hand: warning check, stages 1–5, execute. -/
def engineRun (hostname : String → Option String) (activity : Nat → Option Int)
    (warningActive : Bool) (now : Int) (settings : Settings)
    (allTabs : List Tab) : RunResult :=
  let w := warningStep settings warningActive (allTabs.length : Int)
  let final := maxTabPass hostname settings.whitelist settings.maxTabs allTabs
    (closeAfterDup hostname activity now settings allTabs)
  { closedTabs := final
    closeInvoked := !final.isEmpty
    notifications := w.2.1 ++
      (if final.isEmpty = false ∧ settings.notificationsEnabled then ["Tabs Cleaned"] else [])
    iconEvents := w.2.2
    warningActive := w.1 }

/-- `applyCleanupRules`: fetch settings (internally default-on-failure),
gate on `enabled`, fetch the snapshot (a failure is caught by the outer
`try/catch` before any effect), then run the engine.  The second component
is the activity map after the run — the source function never writes
`tabActivityMap`, so it is returned unchanged on every path. -/
def applyCleanupRules (hostname : String → Option String) (activity : Nat → Option Int)
    (warningActive : Bool) (now : Int) (settingsStore : Except Unit Settings)
    (tabsRes : Except Unit (List Tab)) : RunResult × (Nat → Option Int) :=
  let settings := getSettings settingsStore
  if settings.enabled = false then (noEffects warningActive, activity)
  else
    match tabsRes with
    | .error _ => (noEffects warningActive, activity)
    | .ok allTabs =>
        (engineRun hostname activity warningActive now settings allTabs, activity)

/-- The spec's data-model invariant on a tab snapshot: tab ids are unique
(`id` is "an opaque unique identifier").  Formulated pairwise: no two
distinct snapshot entries carry the same present id. -/
def UniqueIds (tabs : List Tab) : Prop :=
  List.Pairwise (fun a b => a.id.isSome = true → a.id ≠ b.id) tabs

/-- The external inputs of one `applyCleanupRules` trigger. -/
structure RunInput where
  hostname : String → Option String
  activity : Nat → Option Int
  now : Int
  settingsStore : Except Unit Settings
  tabsRes : Except Unit (List Tab)

/-- One engine run from a given latch value. -/
def runOnce (warn : Bool) (i : RunInput) : RunResult :=
  (applyCleanupRules i.hostname i.activity warn i.now i.settingsStore i.tabsRes).1

/-- The `warningActive` latch after a sequence of runs, threading each run's
latch into the next. -/
def latchAfterRuns (warn : Bool) (inputs : List RunInput) : Bool :=
  inputs.foldl (fun w i => (runOnce w i).warningActive) warn

/-- A strict comparator that is a consistent total preorder in the sense
needed for sorting: irreflexive, asymmetric, and with transitive
complement. -/
def StrictPreorderB (lt : Tab → Tab → Bool) : Prop :=
  (∀ a, lt a a = false)
  ∧ (∀ a b, lt a b = true → lt b a = false)
  ∧ (∀ a b c, lt b a = false → lt c b = false → lt c a = false)

/-! ## Helper lemmas -/

theorem mem_addClose {s : List Nat} {n m : Nat} :
    m ∈ addClose s n ↔ m ∈ s ∨ m = n := by
  by_cases h : n ∈ s
  · simp only [addClose, if_pos h]
    exact ⟨Or.inl, fun hm => hm.elim id (fun he => he ▸ h)⟩
  · simp [addClose, if_neg h]

theorem jsEndsWith_iff (s t : String) :
    jsEndsWith s t = true ↔ ∃ p : String, s = p ++ t := by
  unfold jsEndsWith
  rw [List.isSuffixOf_iff_suffix]
  constructor
  · rintro ⟨l, hl⟩
    refine ⟨⟨l⟩, String.ext ?_⟩
    simpa [String.data_append] using hl.symm
  · rintro ⟨p, rfl⟩
    exact ⟨p.data, by simp [String.data_append]⟩

/-! ## C4 — domain matching -/

/-- C4 counterexample: the claimed equivalence "domainMatches(D, P) returns
true if and only if D equals P or D ends with "." + P" fails at the concrete
input `D = P = ""`: there `D` equals `P`, yet `domainMatches` returns
`false` (the empty-input guard fires first). -/
theorem c4_counterexample :
    ¬ (domainMatches "" "" = true ↔
        (("" : String) = "" ∨ ∃ p : String, ("" : String) = p ++ ("." ++ ""))) := by
  intro h
  exact absurd (h.mpr (Or.inl rfl)) (by decide)

/-- C4 (amended): for nonempty strings `D` and `P`, `domainMatches D P`
returns true iff `D` equals `P` or `D` ends with `"." + P`; whenever either
argument is empty it returns false; in particular
`domainMatches "fakegoogle.com" "google.com"` is false and
`domainMatches "a.b.c.example.com" "example.com"` is true. -/
theorem c4_domainMatches_spec :
    (∀ D P : String, D ≠ "" → P ≠ "" →
      (domainMatches D P = true ↔ (D = P ∨ ∃ p : String, D = p ++ ("." ++ P))))
    ∧ (∀ D P : String, D = "" ∨ P = "" → domainMatches D P = false)
    ∧ domainMatches "fakegoogle.com" "google.com" = false
    ∧ domainMatches "a.b.c.example.com" "example.com" = true := by
  refine ⟨?_, ?_, by decide, by decide⟩
  · intro D P hD hP
    by_cases hDP : D = P
    · subst hDP; simp [domainMatches, hD]
    · simp [domainMatches, hD, hP, hDP, jsEndsWith_iff]
  · rintro D P (rfl | rfl) <;> simp [domainMatches]

/-- Witness for `c4_domainMatches_spec`: its equivalence applied at the
concrete subdomain example from the source's doc comment. -/
theorem c4_witness :
    domainMatches "mail.google.com" "google.com" = true :=
  (c4_domainMatches_spec.1 "mail.google.com" "google.com" (by decide) (by decide)).mpr
    (Or.inr ⟨"mail", by decide⟩)

/-! ## C6 — last-activity lookup -/

/-- C6 counterexample: a record can be stored for tab id `0`
(`updateTabActivity` is unconditional), yet `getLastActivity` ignores it —
`tab.id` is falsy in the guard `tab.id && tabActivityMap.has(tab.id)` — and
falls back to `lastAccessed` (here `7` instead of the stored `5`). -/
theorem c6_counterexample :
    updateTabActivity (fun _ => none) 0 5 0 = some 5 ∧
    getLastActivity (updateTabActivity (fun _ => none) 0 5)
      { id := some 0, url := none, active := false, lastAccessed := some 7 } = 7 :=
  ⟨rfl, rfl⟩

/-- C6 (amended): when `tab.id` is truthy (present and nonzero) and a record
is stored for it, `getLastActivity` returns the stored timestamp; in every
other case — no record for a truthy id, id absent, or id `0` (whose stored
record is ignored) — it returns `tab.lastAccessed`, or `0` when that too is
absent. -/
theorem c6_getLastActivity_spec :
    (∀ (m : Nat → Option Int) (t : Tab) (n : Nat) (v : Int),
      t.id = some n → n ≠ 0 → m n = some v → getLastActivity m t = v)
    ∧ (∀ (m : Nat → Option Int) (t : Tab),
      (∀ n, t.id = some n → n ≠ 0 → m n = none) →
      getLastActivity m t = t.lastAccessed.getD 0) := by
  constructor
  · intro m t n v hid hn hv
    simp [getLastActivity, hid, hn, hv]
  · intro m t h
    match ht : t.id with
    | none => simp [getLastActivity, ht]
    | some n =>
      by_cases hn : n = 0
      · simp [getLastActivity, ht, hn]
      · simp [getLastActivity, ht, hn, h n ht hn]

/-- Witness for `c6_getLastActivity_spec`: both branches applied at concrete
inputs — a stored record for id `3` is returned, and with no record the
`lastAccessed` fallback is returned. -/
theorem c6_witness :
    getLastActivity (fun k => if k = 3 then some 42 else none)
      { id := some 3, url := none, active := false, lastAccessed := some 7 } = 42 ∧
    getLastActivity (fun _ => none)
      { id := some 3, url := none, active := false, lastAccessed := some 7 } = 7 :=
  ⟨c6_getLastActivity_spec.1 _ _ 3 42 rfl (by decide) rfl,
   c6_getLastActivity_spec.2 (fun _ => none) _ (fun _ _ _ => rfl)⟩

/-! ## C7 — disabled gate, C8 — fetch failure, C2 — maxTabs = 0 -/

/-- C7: with `settings.enabled` false, `applyCleanupRules` performs no
action whatever the other settings, the latch and the snapshot (even a
failing snapshot fetch): no close action, no notification, no icon change,
latch and activity map unchanged. -/
theorem c7_disabled_no_action (hostname : String → Option String)
    (activity : Nat → Option Int) (warn : Bool) (now : Int) (settings : Settings)
    (tabsRes : Except Unit (List Tab)) (h : settings.enabled = false) :
    applyCleanupRules hostname activity warn now (.ok settings) tabsRes
      = (noEffects warn, activity) := by
  simp [applyCleanupRules, getSettings, h]

/-- Witness for `c7_disabled_no_action`: a disabled engine run over a
closable snapshot produces no effect. -/
theorem c7_witness :
    applyCleanupRules (fun u => some u) (fun _ => none) true 100000000
      (.ok { enabled := false, idleTimeout := 0, maxTabs := 0, whitelist := [],
             blacklist := [], notificationsEnabled := true })
      (.ok [{ id := some 1, url := none, active := false, lastAccessed := some 1 }])
      = (noEffects true, (fun _ => none)) :=
  c7_disabled_no_action _ _ _ _ _ _ rfl

/-- C8: if fetching the settings fails (`getSettings` internally falls back
to the disabled defaults) or fetching the tab snapshot fails (caught by the
engine's `try/catch` before any effect), the run produces no effect at all —
in particular the close action is never invoked — and no error propagates
(the model stays total). -/
theorem c8_fetch_failure_no_closure (hostname : String → Option String)
    (activity : Nat → Option Int) (warn : Bool) (now : Int)
    (settingsStore : Except Unit Settings) (tabsRes : Except Unit (List Tab))
    (h : settingsStore = .error () ∨ tabsRes = .error ()) :
    applyCleanupRules hostname activity warn now settingsStore tabsRes
      = (noEffects warn, activity) := by
  rcases h with h | h
  · subst h
    simp [applyCleanupRules, getSettings, DEFAULT_SETTINGS]
  · subst h
    by_cases he : (getSettings settingsStore).enabled = false <;>
      simp [applyCleanupRules, he]

/-- Witness for `c8_fetch_failure_no_closure`: a failed snapshot fetch with
otherwise fully enabled settings closes nothing. -/
theorem c8_witness :
    applyCleanupRules (fun u => some u) (fun _ => none) false 100000000
      (.ok { enabled := true, idleTimeout := 0, maxTabs := 0, whitelist := [],
             blacklist := [], notificationsEnabled := true })
      (.error ())
      = (noEffects false, (fun _ => none)) :=
  c8_fetch_failure_no_closure _ _ _ _ _ _ (Or.inr rfl)

/-- C2 (code bug): the source's max-tab pass has no `maxTabs == 0` skip —
`if (remainingCount > maxTabs)` treats `0` as a hard limit of zero — although
the repository's README documents `0 = unlimited`.  At this input (`maxTabs
= 0`, two fresh inactive tabs untouched by every other rule) the code closes
both tabs, where the claim (and README) require the stage to close none. -/
theorem c2_maxTabs_zero_closes_tabs :
    (applyCleanupRules (fun _ => none) (fun _ => none) false 10
      (.ok { enabled := true, idleTimeout := 30, maxTabs := 0, whitelist := [],
             blacklist := [], notificationsEnabled := false })
      (.ok [{ id := some 1, url := none, active := false, lastAccessed := some 10 },
            { id := some 2, url := none, active := false, lastAccessed := some 20 }])).1.closedTabs
      = [1, 2] := by
  rfl

/-! ## C9 — warning latch hysteresis -/

theorem warningStep_spec (s : Settings) (w : Bool) (len : Int) :
    (w = true → (warningStep s w len).2.1 = [])
    ∧ ((warningStep s w len).1 = false → w = true → len < s.maxTabs - 2)
    ∧ ("Tab Warning" ∈ (warningStep s w len).2.1 →
        s.notificationsEnabled = true ∧ w = false ∧ (warningStep s w len).1 = true ∧
        0 < s.maxTabs - 2 ∧ s.maxTabs - 2 ≤ len) := by
  unfold warningStep
  by_cases h1 : 0 < s.maxTabs - 2 ∧ s.maxTabs - 2 ≤ len
  · by_cases h2 : w = false
    · subst h2
      by_cases h3 : s.notificationsEnabled <;> simp [h1, h3]
    · have h2' : w = true := by revert h2; cases w <;> simp
      subst h2'
      simp [h1]
  · by_cases h3 : len < s.maxTabs - 2 ∧ w = true
    · rw [if_neg h1, if_pos h3]
      exact ⟨fun _ => rfl, fun _ _ => h3.1, by simp⟩
    · rw [if_neg h1, if_neg h3]
      refine ⟨fun _ => rfl, fun hw hwt => ?_, by simp⟩
      rw [hwt] at hw
      simp at hw

theorem engineRun_warning_fields (hostname : String → Option String)
    (activity : Nat → Option Int) (warn : Bool) (now : Int) (settings : Settings)
    (tabs : List Tab) :
    (engineRun hostname activity warn now settings tabs).warningActive
      = (warningStep settings warn (tabs.length : Int)).1
    ∧ ("Tab Warning" ∈ (engineRun hostname activity warn now settings tabs).notifications ↔
        "Tab Warning" ∈ (warningStep settings warn (tabs.length : Int)).2.1) := by
  constructor
  · rfl
  · simp only [engineRun, List.mem_append]
    constructor
    · rintro (h | h)
      · exact h
      · exfalso
        split at h
        · exact absurd h (by decide)
        · exact absurd h (by decide)
    · exact Or.inl

/-- C9: the warning latch is a hysteresis across any sequence of runs.  For
every initial latch value, every prefix of earlier runs and every next
input: (i) when the latch enters the run set, the run raises no "Tab
Warning" notification; (ii) the latch is cleared only by a run whose
(successfully fetched) snapshot has strictly fewer tabs than the threshold
`maxTabs - 2`; (iii) a "Tab Warning" notification is raised only when
notifications are enabled, the latch entered clear, the run sets it, and the
snapshot reached a positive threshold. -/
theorem c9_warning_latch_hysteresis (warn0 : Bool) (pre : List RunInput) (i : RunInput) :
    (latchAfterRuns warn0 pre = true →
      "Tab Warning" ∉ (runOnce (latchAfterRuns warn0 pre) i).notifications)
    ∧ (latchAfterRuns warn0 pre = true →
      (runOnce (latchAfterRuns warn0 pre) i).warningActive = false →
      ∃ tabs, i.tabsRes = .ok tabs ∧ (getSettings i.settingsStore).enabled = true ∧
        (tabs.length : Int) < (getSettings i.settingsStore).maxTabs - 2)
    ∧ ("Tab Warning" ∈ (runOnce (latchAfterRuns warn0 pre) i).notifications →
      (getSettings i.settingsStore).notificationsEnabled = true ∧
      latchAfterRuns warn0 pre = false ∧
      (runOnce (latchAfterRuns warn0 pre) i).warningActive = true ∧
      ∃ tabs, i.tabsRes = .ok tabs ∧ 0 < (getSettings i.settingsStore).maxTabs - 2 ∧
        (getSettings i.settingsStore).maxTabs - 2 ≤ (tabs.length : Int)) := by
  set w := latchAfterRuns warn0 pre with hwdef
  set s := getSettings i.settingsStore with hsdef
  by_cases he : s.enabled = false
  · have hrun : runOnce w i = noEffects w := by
      simp [runOnce, applyCleanupRules, ← hsdef, he]
    refine ⟨by simp [hrun, noEffects], fun hw1 hw2 => ?_, by simp [hrun, noEffects]⟩
    rw [hrun] at hw2
    simp only [noEffects] at hw2
    rw [hw1] at hw2
    simp at hw2
  · cases ht : i.tabsRes with
    | error e =>
      have hrun : runOnce w i = noEffects w := by
        simp [runOnce, applyCleanupRules, ← hsdef, he, ht]
      refine ⟨by simp [hrun, noEffects], fun hw1 hw2 => ?_, by simp [hrun, noEffects]⟩
      rw [hrun] at hw2
      simp only [noEffects] at hw2
      rw [hw1] at hw2
      simp at hw2
    | ok tabs =>
      have hrun : runOnce w i = engineRun i.hostname i.activity w i.now s tabs := by
        simp [runOnce, applyCleanupRules, ← hsdef, he, ht]
      obtain ⟨hwa, hmem⟩ := engineRun_warning_fields i.hostname i.activity w i.now s tabs
      obtain ⟨p1, p2, p3⟩ := warningStep_spec s w (tabs.length : Int)
      refine ⟨fun h1 hc => ?_, fun h1 h2 => ?_, fun hc => ?_⟩
      · rw [hrun] at hc
        have := hmem.mp hc
        rw [p1 h1] at this
        exact absurd this (by simp)
      · rw [hrun, hwa] at h2
        exact ⟨tabs, rfl, by revert he; cases s.enabled <;> simp, p2 h2 h1⟩
      · rw [hrun] at hc
        have h3 := p3 (hmem.mp hc)
        exact ⟨h3.1, h3.2.1, by rw [hrun, hwa]; exact h3.2.2.1,
          tabs, rfl, h3.2.2.2.1, h3.2.2.2.2⟩

/-- Witness for `c9_warning_latch_hysteresis`: with the latch already set
(initial latch true, empty prefix), a run over a snapshot at the threshold
raises no "Tab Warning" notification. -/
theorem c9_witness :
    "Tab Warning" ∉ (runOnce (latchAfterRuns true [])
      ⟨fun _ => none, fun _ => none, 0,
        .ok ⟨true, 30, 5, [], [], true⟩,
        .ok [⟨some 1, none, true, some 0⟩, ⟨some 2, none, false, some 0⟩,
          ⟨some 3, none, false, some 0⟩]⟩).notifications :=
  (c9_warning_latch_hysteresis true []
    ⟨fun _ => none, fun _ => none, 0,
      .ok ⟨true, 30, 5, [], [], true⟩,
      .ok [⟨some 1, none, true, some 0⟩, ⟨some 2, none, false, some 0⟩,
        ⟨some 3, none, false, some 0⟩]⟩).1 rfl

/-! ## C10 — the max-tab pass never over-closes -/

theorem maxTabLoop_length (hostname : String → Option String) (wl : List String)
    (extra : Int) : ∀ (ts : List Tab) (acc : List Nat) (closed : Int),
    (maxTabLoop hostname wl extra ts acc closed).length ≤
      acc.length + (extra - closed).toNat := by
  intro ts
  induction ts with
  | nil =>
    intro acc closed
    simp [maxTabLoop]
  | cons t ts ih =>
    intro acc closed
    simp only [maxTabLoop]
    split
    · omega
    · rename_i hlt
      split
      next tid heq =>
        split
        · split
          · exact ih acc closed
          · refine le_trans (ih (acc ++ [tid]) (closed + 1)) ?_
            simp only [List.length_append, List.length_cons, List.length_nil]
            omega
        · exact ih acc closed
      next heq => exact ih acc closed

/-- C10: the max-tab pass adds at most `remainingCount - maxTabs` ids to the
close set, hence whenever `remainingCount = totalTabCount - closeSetSize`
exceeds `maxTabs` on entry to the pass, at least `maxTabs` tabs survive the
run (`totalTabCount` minus the final close-set size is at least
`maxTabs`). -/
theorem c10_maxTab_never_overcloses (hostname : String → Option String)
    (activity : Nat → Option Int) (warn : Bool) (now : Int) (settings : Settings)
    (tabs : List Tab)
    (h : settings.maxTabs <
      (tabs.length : Int) -
        ((closeAfterDup hostname activity now settings tabs).length : Int)) :
    (((engineRun hostname activity warn now settings tabs).closedTabs.length : Int) ≤
      ((closeAfterDup hostname activity now settings tabs).length : Int) +
        ((tabs.length : Int) -
          ((closeAfterDup hostname activity now settings tabs).length : Int) -
          settings.maxTabs))
    ∧ settings.maxTabs ≤
      (tabs.length : Int) -
        ((engineRun hostname activity warn now settings tabs).closedTabs.length : Int) := by
  have hc : (engineRun hostname activity warn now settings tabs).closedTabs
      = maxTabPass hostname settings.whitelist settings.maxTabs tabs
          (closeAfterDup hostname activity now settings tabs) := rfl
  rw [hc, maxTabPass]
  simp only [if_pos h]
  have hb := maxTabLoop_length hostname settings.whitelist
    ((tabs.length : Int) - ((closeAfterDup hostname activity now settings tabs).length : Int)
      - settings.maxTabs)
    (sortTabs ascLt tabs) (closeAfterDup hostname activity now settings tabs) 0
  omega

/-- Witness for `c10_maxTab_never_overcloses`: three fresh inactive tabs,
`maxTabs = 1`, empty close set before the pass — the engine closes at most
two tabs and at least one tab survives. -/
theorem c10_witness :
    (((engineRun (fun _ => none) (fun _ => none) false 0
        ⟨true, 30, 1, [], [], false⟩
        [⟨some 1, none, false, some 10⟩, ⟨some 2, none, false, some 20⟩,
         ⟨some 3, none, false, some 30⟩]).closedTabs.length : Int) ≤
      ((closeAfterDup (fun _ => none) (fun _ => none) 0
        ⟨true, 30, 1, [], [], false⟩
        [⟨some 1, none, false, some 10⟩, ⟨some 2, none, false, some 20⟩,
         ⟨some 3, none, false, some 30⟩]).length : Int) +
        (((3 : Nat) : Int) -
          ((closeAfterDup (fun _ => none) (fun _ => none) 0
            ⟨true, 30, 1, [], [], false⟩
            [⟨some 1, none, false, some 10⟩, ⟨some 2, none, false, some 20⟩,
             ⟨some 3, none, false, some 30⟩]).length : Int) - 1))
    ∧ (1 : Int) ≤ ((3 : Nat) : Int) -
        ((engineRun (fun _ => none) (fun _ => none) false 0
          ⟨true, 30, 1, [], [], false⟩
          [⟨some 1, none, false, some 10⟩, ⟨some 2, none, false, some 20⟩,
           ⟨some 3, none, false, some 30⟩]).closedTabs.length : Int) :=
  c10_maxTab_never_overcloses (fun _ => none) (fun _ => none) false 0
    ⟨true, 30, 1, [], [], false⟩
    [⟨some 1, none, false, some 10⟩, ⟨some 2, none, false, some 20⟩,
     ⟨some 3, none, false, some 30⟩] (by decide)

/-! ## C1, C3 — membership in the final close set -/

theorem mem_insertSorted {lt : Tab → Tab → Bool} {x a : Tab} {l : List Tab} :
    a ∈ insertSorted lt x l ↔ a = x ∨ a ∈ l := by
  induction l with
  | nil => simp [insertSorted]
  | cons y ys ih =>
    simp only [insertSorted]
    split
    · simp only [List.mem_cons, ih]
      tauto
    · simp [List.mem_cons]

theorem mem_sortTabs {lt : Tab → Tab → Bool} {a : Tab} {l : List Tab} :
    a ∈ sortTabs lt l ↔ a ∈ l := by
  induction l with
  | nil => simp [sortTabs]
  | cons x xs ih => simp [sortTabs, mem_insertSorted, ih]

theorem perTabStep_mem (hostname : String → Option String) (activity : Nat → Option Int)
    (now : Int) (settings : Settings) (acc : List Nat) (tab : Tab) (m : Nat)
    (h : m ∈ perTabStep hostname activity now settings acc tab) :
    m ∈ acc ∨ (tab.id = some m ∧ tab.active = false ∧
      onList hostname settings.whitelist tab = false) := by
  unfold perTabStep at h
  split at h
  · exact Or.inl h
  · rename_i tid heq
    split at h
    · exact Or.inl h
    · split at h
      · exact Or.inl h
      · split at h
        · exact Or.inl h
        · rename_i h0 hact hwl
          split at h
          · rcases mem_addClose.mp h with hm | hm
            · exact Or.inl hm
            · subst hm
              exact Or.inr ⟨heq, by simpa using hact, by simpa using hwl⟩
          · split at h
            · rcases mem_addClose.mp h with hm | hm
              · exact Or.inl hm
              · subst hm
                exact Or.inr ⟨heq, by simpa using hact, by simpa using hwl⟩
            · exact Or.inl h

theorem closeAfterPerTab_mem (hostname : String → Option String)
    (activity : Nat → Option Int) (now : Int) (settings : Settings)
    (tabs : List Tab) (m : Nat)
    (h : m ∈ closeAfterPerTab hostname activity now settings tabs) :
    ∃ t ∈ tabs, t.id = some m ∧ t.active = false ∧
      onList hostname settings.whitelist t = false := by
  have H : ∀ (ts : List Tab) (acc : List Nat),
      m ∈ ts.foldl (perTabStep hostname activity now settings) acc →
      m ∈ acc ∨ ∃ t ∈ ts, t.id = some m ∧ t.active = false ∧
        onList hostname settings.whitelist t = false := by
    intro ts
    induction ts with
    | nil => intro acc h; exact Or.inl h
    | cons t ts ih =>
      intro acc h
      rcases ih _ h with h0 | ⟨t2, ht2, hp⟩
      · rcases perTabStep_mem hostname activity now settings acc t m h0 with h1 | h2
        · exact Or.inl h1
        · exact Or.inr ⟨t, by simp, h2⟩
      · exact Or.inr ⟨t2, by simp [ht2], hp⟩
  rcases H tabs [] h with h0 | h1
  · simp at h0
  · exact h1

theorem dupStep_mem (hostname : String → Option String) (wl : List String)
    (allTabs : List Tab) (acc : List Nat) (tid m : Nat)
    (h : m ∈ dupStep hostname wl allTabs acc tid) :
    m ∈ acc ∨ ∃ t ∈ allTabs, t.id = some m ∧ t.active = false ∧
      onList hostname wl t = false := by
  unfold dupStep at h
  split at h
  · rename_i tab heq
    split at h
    · exact Or.inl h
    · split at h
      · exact Or.inl h
      · rename_i hact hwl
        rcases mem_addClose.mp h with hm | hm
        · exact Or.inl hm
        · subst hm
          have hmem := List.mem_of_find?_eq_some heq
          have hpred := List.find?_some heq
          refine Or.inr ⟨tab, hmem, by simpa using hpred, by simpa using hact,
            by simpa using hwl⟩
  · exact Or.inl h

theorem closeAfterDup_mem (hostname : String → Option String)
    (activity : Nat → Option Int) (now : Int) (settings : Settings)
    (tabs : List Tab) (m : Nat)
    (h : m ∈ closeAfterDup hostname activity now settings tabs) :
    ∃ t ∈ tabs, t.id = some m ∧ t.active = false ∧
      onList hostname settings.whitelist t = false := by
  have H : ∀ (ids : List Nat) (acc : List Nat),
      m ∈ ids.foldl (dupStep hostname settings.whitelist tabs) acc →
      m ∈ acc ∨ ∃ t ∈ tabs, t.id = some m ∧ t.active = false ∧
        onList hostname settings.whitelist t = false := by
    intro ids
    induction ids with
    | nil => intro acc h; exact Or.inl h
    | cons i ids ih =>
      intro acc h
      rcases ih _ h with h0 | h1
      · exact dupStep_mem hostname settings.whitelist tabs acc i m h0
      · exact Or.inr h1
  rcases H (getDuplicateTabs tabs) (closeAfterPerTab hostname activity now settings tabs)
      h with h0 | h1
  · exact closeAfterPerTab_mem hostname activity now settings tabs m h0
  · exact h1

theorem maxTabLoop_mem (hostname : String → Option String) (wl : List String)
    (extra : Int) : ∀ (ts : List Tab) (acc : List Nat) (closed : Int) (m : Nat),
    m ∈ maxTabLoop hostname wl extra ts acc closed →
    m ∈ acc ∨ ∃ t ∈ ts, t.id = some m ∧ t.active = false ∧
      onList hostname wl t = false := by
  intro ts
  induction ts with
  | nil =>
    intro acc closed m h
    exact Or.inl (by simpa [maxTabLoop] using h)
  | cons t ts ih =>
    intro acc closed m h
    simp only [maxTabLoop] at h
    split at h
    · exact Or.inl h
    · split at h
      next tid heq =>
        split at h
        · split at h
          · rcases ih acc closed m h with h0 | ⟨t2, ht2, hp⟩
            · exact Or.inl h0
            · exact Or.inr ⟨t2, by simp [ht2], hp⟩
          · rename_i hcond hwl
            rcases ih (acc ++ [tid]) (closed + 1) m h with h0 | ⟨t2, ht2, hp⟩
            · rcases List.mem_append.mp h0 with h1 | h1
              · exact Or.inl h1
              · have hm : m = tid := by simpa using h1
                subst hm
                exact Or.inr ⟨t, by simp, heq, hcond.2.1, by simpa using hwl⟩
            · exact Or.inr ⟨t2, by simp [ht2], hp⟩
        · rcases ih acc closed m h with h0 | ⟨t2, ht2, hp⟩
          · exact Or.inl h0
          · exact Or.inr ⟨t2, by simp [ht2], hp⟩
      next heq =>
        rcases ih acc closed m h with h0 | ⟨t2, ht2, hp⟩
        · exact Or.inl h0
        · exact Or.inr ⟨t2, by simp [ht2], hp⟩

theorem engineRun_closedTabs_mem (hostname : String → Option String)
    (activity : Nat → Option Int) (warn : Bool) (now : Int) (settings : Settings)
    (tabs : List Tab) (m : Nat)
    (h : m ∈ (engineRun hostname activity warn now settings tabs).closedTabs) :
    ∃ t ∈ tabs, t.id = some m ∧ t.active = false ∧
      onList hostname settings.whitelist t = false := by
  have hc : (engineRun hostname activity warn now settings tabs).closedTabs
      = maxTabPass hostname settings.whitelist settings.maxTabs tabs
          (closeAfterDup hostname activity now settings tabs) := rfl
  rw [hc] at h
  unfold maxTabPass at h
  split at h
  · rcases maxTabLoop_mem hostname settings.whitelist _ _ _ _ m h with h0 | ⟨t, ht, hp⟩
    · exact closeAfterDup_mem hostname activity now settings tabs m h0
    · exact ⟨t, mem_sortTabs.mp ht, hp⟩
  · exact closeAfterDup_mem hostname activity now settings tabs m h

theorem uniqueIds_symm :
    Symmetric (fun a b : Tab => a.id.isSome = true → a.id ≠ b.id) := by
  intro a b hab hbs hEq
  exact hab (by rw [← hEq]; exact hbs) hEq.symm

/-- C1: under the data model's id-uniqueness invariant, a tab with
`active = true` is never added to the close set by any stage of
`applyCleanupRules` — its id never reaches the close action, for every
hostname oracle, activity map, latch, clock, settings fetch result and
snapshot. -/
theorem c1_active_never_closed (hostname : String → Option String)
    (activity : Nat → Option Int) (warn : Bool) (now : Int)
    (settingsStore : Except Unit Settings) (tabs : List Tab)
    (hU : UniqueIds tabs) (t : Tab) (ht : t ∈ tabs) (ha : t.active = true)
    (tid : Nat) (hid : t.id = some tid) :
    tid ∉ (applyCleanupRules hostname activity warn now settingsStore
      (.ok tabs)).1.closedTabs := by
  intro hc
  by_cases he : (getSettings settingsStore).enabled = false
  · simp [applyCleanupRules, he, noEffects] at hc
  · have hrun : (applyCleanupRules hostname activity warn now settingsStore (.ok tabs)).1
        = engineRun hostname activity warn now (getSettings settingsStore) tabs := by
      simp [applyCleanupRules, he]
    rw [hrun] at hc
    obtain ⟨t2, ht2, hid2, hact2, _⟩ :=
      engineRun_closedTabs_mem hostname activity warn now (getSettings settingsStore)
        tabs tid hc
    have hne : t ≠ t2 := by
      intro hEq
      rw [← hEq, ha] at hact2
      exact absurd hact2 (by simp)
    exact List.Pairwise.forall uniqueIds_symm hU ht ht2 hne (by simp [hid])
      (by rw [hid, hid2])

/-- Witness for `c1_active_never_closed`: an active blacklisted tab next to
an idle inactive one; the active tab's id 1 is not closed. -/
theorem c1_witness :
    (1 : Nat) ∉ (applyCleanupRules (fun _ => some "bad.com") (fun _ => none) false
      100000000
      (.ok ⟨true, 1, 50, [], ["bad.com"], true⟩)
      (.ok [⟨some 1, some "https://bad.com/a", true, some 0⟩,
            ⟨some 2, some "https://bad.com/b", false, some 0⟩])).1.closedTabs :=
  c1_active_never_closed (fun _ => some "bad.com") (fun _ => none) false 100000000
    (.ok ⟨true, 1, 50, [], ["bad.com"], true⟩)
    [⟨some 1, some "https://bad.com/a", true, some 0⟩,
     ⟨some 2, some "https://bad.com/b", false, some 0⟩]
    (by unfold UniqueIds; decide)
    ⟨some 1, some "https://bad.com/a", true, some 0⟩ (by decide) rfl 1 rfl

/-- C3: under the data model's id-uniqueness invariant, a tab whose domain
matches some whitelist pattern is never added to the close set by any stage
of `applyCleanupRules` — blacklist (even when it lists the same domain),
idle timeout, duplicate pass and max-tab pass included. -/
theorem c3_whitelisted_never_closed (hostname : String → Option String)
    (activity : Nat → Option Int) (warn : Bool) (now : Int) (settings : Settings)
    (tabs : List Tab) (hU : UniqueIds tabs) (t : Tab) (ht : t ∈ tabs)
    (hw : onList hostname settings.whitelist t = true)
    (tid : Nat) (hid : t.id = some tid) :
    tid ∉ (applyCleanupRules hostname activity warn now (.ok settings)
      (.ok tabs)).1.closedTabs := by
  intro hc
  by_cases he : settings.enabled = false
  · simp [applyCleanupRules, getSettings, he, noEffects] at hc
  · have hrun : (applyCleanupRules hostname activity warn now (.ok settings) (.ok tabs)).1
        = engineRun hostname activity warn now settings tabs := by
      simp [applyCleanupRules, getSettings, he]
    rw [hrun] at hc
    obtain ⟨t2, ht2, hid2, _, hwl2⟩ :=
      engineRun_closedTabs_mem hostname activity warn now settings tabs tid hc
    have hne : t ≠ t2 := by
      intro hEq
      rw [← hEq, hw] at hwl2
      exact absurd hwl2 (by simp)
    exact List.Pairwise.forall uniqueIds_symm hU ht ht2 hne (by simp [hid])
      (by rw [hid, hid2])

/-- Witness for `c3_whitelisted_never_closed`: a `sub.example.com` tab idle
far beyond the timeout, whitelist `["example.com"]`, blacklist also
`["example.com"]`; its id 1 is not closed. -/
theorem c3_witness :
    (1 : Nat) ∉ (applyCleanupRules (fun _ => some "sub.example.com") (fun _ => none)
      false 100000000
      (.ok ⟨true, 1, 50, ["example.com"], ["example.com"], true⟩)
      (.ok [⟨some 1, some "https://sub.example.com/", false, some 0⟩])).1.closedTabs :=
  c3_whitelisted_never_closed (fun _ => some "sub.example.com") (fun _ => none)
    false 100000000 ⟨true, 1, 50, ["example.com"], ["example.com"], true⟩
    [⟨some 1, some "https://sub.example.com/", false, some 0⟩]
    (by unfold UniqueIds; decide)
    ⟨some 1, some "https://sub.example.com/", false, some 0⟩ (by decide) (by decide) 1 rfl

/-! ## C5 — the duplicate detector -/

theorem insertSorted_perm (lt : Tab → Tab → Bool) (x : Tab) (l : List Tab) :
    (insertSorted lt x l).Perm (x :: l) := by
  induction l with
  | nil => exact List.Perm.refl _
  | cons y ys ih =>
    simp only [insertSorted]
    split
    · exact (List.Perm.cons y ih).trans (List.Perm.swap x y ys)
    · exact List.Perm.refl _

theorem sortTabs_perm (lt : Tab → Tab → Bool) (l : List Tab) :
    (sortTabs lt l).Perm l := by
  induction l with
  | nil => exact List.Perm.refl _
  | cons x xs ih =>
    exact (insertSorted_perm lt x (sortTabs lt xs)).trans (List.Perm.cons x ih)

theorem insertSorted_pairwise (lt : Tab → Tab → Bool) (hlt : StrictPreorderB lt)
    (x : Tab) (l : List Tab) (hp : l.Pairwise (fun a b => lt b a = false)) :
    (insertSorted lt x l).Pairwise (fun a b => lt b a = false) := by
  induction l with
  | nil => simp [insertSorted]
  | cons y ys ih =>
    have hp1 : ∀ z ∈ ys, lt z y = false := (List.pairwise_cons.mp hp).1
    have hp2 := (List.pairwise_cons.mp hp).2
    simp only [insertSorted]
    split
    · rename_i hyx
      refine List.pairwise_cons.mpr ⟨?_, ih hp2⟩
      intro z hz
      rcases mem_insertSorted.mp hz with rfl | hz2
      · exact hlt.2.1 y z hyx
      · exact hp1 z hz2
    · rename_i hyx
      refine List.pairwise_cons.mpr ⟨?_, hp⟩
      intro z hz
      rcases List.mem_cons.mp hz with rfl | hz2
      · simpa using hyx
      · exact hlt.2.2 x y z (by simpa using hyx) (hp1 z hz2)

theorem sortTabs_pairwise (lt : Tab → Tab → Bool) (hlt : StrictPreorderB lt)
    (l : List Tab) :
    (sortTabs lt l).Pairwise (fun a b => lt b a = false) := by
  induction l with
  | nil => simp [sortTabs]
  | cons x xs ih => exact insertSorted_pairwise lt hlt x _ ih

/-- The head of the sorted list is minimal: nothing in the input strictly
precedes it. -/
theorem sortTabs_head_min (lt : Tab → Tab → Bool) (hlt : StrictPreorderB lt)
    (l : List Tab) (h : Tab) (rest : List Tab) (he : sortTabs lt l = h :: rest) :
    ∀ z ∈ l, lt z h = false := by
  intro z hz
  have hz2 : z ∈ sortTabs lt l := mem_sortTabs.mpr hz
  rw [he] at hz2
  rcases List.mem_cons.mp hz2 with rfl | hz3
  · exact hlt.1 z
  · have := sortTabs_pairwise lt hlt l
    rw [he, List.pairwise_cons] at this
    exact this.1 z hz3

theorem dupLt_strict : StrictPreorderB dupLt := by
  refine ⟨?_, ?_, ?_⟩
  · intro a
    simp [dupLt]
  · intro a b h
    cases ha : a.active <;> cases hb : b.active <;> simp_all [dupLt] <;> omega
  · intro a b c hba hcb
    cases ha : a.active <;> cases hb : b.active <;> cases hc : c.active <;>
      simp_all [dupLt] <;> omega

theorem mem_getDuplicateTabs {tabs : List Tab} {n : Nat} :
    n ∈ getDuplicateTabs tabs ↔
      ∃ p ∈ groupByUrl tabs, 1 < p.2.length ∧
        n ∈ ((sortTabs dupLt p.2).drop 1).filterMap dupPush := by
  have aux : ∀ (gs : List (String × List Tab)) (init : List Nat),
      n ∈ gs.foldl (fun dups g =>
        if 1 < g.2.length then
          dups ++ ((sortTabs dupLt g.2).drop 1).filterMap dupPush
        else dups) init
      ↔ n ∈ init ∨ ∃ p ∈ gs, 1 < p.2.length ∧
          n ∈ ((sortTabs dupLt p.2).drop 1).filterMap dupPush := by
    intro gs
    induction gs with
    | nil => simp
    | cons g gs ih =>
      intro init
      rw [List.foldl_cons, ih]
      by_cases hg : 1 < g.2.length
      · simp only [if_pos hg, List.mem_append]
        constructor
        · rintro ((h | h) | h)
          · exact Or.inl h
          · exact Or.inr ⟨g, by simp, hg, h⟩
          · rcases h with ⟨p, hp, h1, h2⟩
            exact Or.inr ⟨p, by simp [hp], h1, h2⟩
        · rintro (h | ⟨p, hp, h1, h2⟩)
          · exact Or.inl (Or.inl h)
          · rcases List.mem_cons.mp hp with rfl | hp2
            · exact Or.inl (Or.inr h2)
            · exact Or.inr ⟨p, hp2, h1, h2⟩
      · simp only [if_neg hg]
        constructor
        · rintro (h | ⟨p, hp, h1, h2⟩)
          · exact Or.inl h
          · exact Or.inr ⟨p, by simp [hp], h1, h2⟩
        · rintro (h | ⟨p, hp, h1, h2⟩)
          · exact Or.inl h
          · rcases List.mem_cons.mp hp with rfl | hp2
            · exact absurd h1 hg
            · exact Or.inr ⟨p, hp2, h1, h2⟩
  rw [getDuplicateTabs, aux]
  simp

theorem addToGroup_keys (u : String) (t : Tab) : ∀ (m : List (String × List Tab)),
    (addToGroup m u t).map Prod.fst =
      if u ∈ m.map Prod.fst then m.map Prod.fst else m.map Prod.fst ++ [u] := by
  intro m
  induction m with
  | nil => simp [addToGroup]
  | cons p rest ih =>
    obtain ⟨k, ts⟩ := p
    simp only [addToGroup]
    by_cases hk : k = u
    · subst hk
      simp
    · rw [if_neg hk]
      simp only [List.map_cons, ih]
      by_cases hu : u ∈ rest.map Prod.fst
      · rw [if_pos hu, if_pos (by simp [hu])]
      · rw [if_neg hu, if_neg (by simp [hu, Ne.symm hk]), List.cons_append]

theorem addToGroup_mem_ne {m : List (String × List Tab)} {u : String} {t : Tab}
    {p : String × List Tab} (h : p ∈ addToGroup m u t) (hne : p.1 ≠ u) : p ∈ m := by
  induction m with
  | nil =>
    simp only [addToGroup, List.mem_singleton] at h
    exact absurd (by rw [h]) hne
  | cons q rest ih =>
    obtain ⟨k, ts⟩ := q
    simp only [addToGroup] at h
    by_cases hk : k = u
    · rw [if_pos hk] at h
      rcases List.mem_cons.mp h with rfl | h2
      · exact absurd (hk ▸ rfl) hne
      · exact List.mem_cons_of_mem _ h2
    · rw [if_neg hk] at h
      rcases List.mem_cons.mp h with rfl | h2
      · exact List.mem_cons_self _ _
      · exact List.mem_cons_of_mem _ (ih h2)

theorem addToGroup_mem_eq {m : List (String × List Tab)} {u : String} {t : Tab}
    {g : List Tab} (hnd : (m.map Prod.fst).Nodup) (h : (u, g) ∈ addToGroup m u t) :
    (u ∉ m.map Prod.fst ∧ g = [t]) ∨ (∃ g0, (u, g0) ∈ m ∧ g = g0 ++ [t]) := by
  induction m with
  | nil =>
    simp only [addToGroup, List.mem_singleton] at h
    exact Or.inl ⟨by simp, by simpa using congrArg Prod.snd h⟩
  | cons q rest ih =>
    obtain ⟨k, ts⟩ := q
    simp only [List.map_cons, List.nodup_cons] at hnd
    simp only [addToGroup] at h
    by_cases hk : k = u
    · subst hk
      rw [if_pos rfl] at h
      rcases List.mem_cons.mp h with h1 | h2
      · have hg : g = ts ++ [t] := by simpa using congrArg Prod.snd h1
        exact Or.inr ⟨ts, List.mem_cons_self _ _, hg⟩
      · exact absurd (List.mem_map_of_mem Prod.fst h2) hnd.1
    · rw [if_neg hk] at h
      rcases List.mem_cons.mp h with h1 | h2
      · exact absurd (congrArg Prod.fst h1).symm hk
      · rcases ih hnd.2 h2 with ⟨hu, hg⟩ | ⟨g0, hg0, hg⟩
        · exact Or.inl ⟨by simp [hu, Ne.symm hk], hg⟩
        · exact Or.inr ⟨g0, List.mem_cons_of_mem _ hg0, hg⟩

theorem addToGroup_mem_of_ne {m : List (String × List Tab)} {u : String} {t : Tab}
    {p : String × List Tab} (h : p ∈ m) (hne : p.1 ≠ u) : p ∈ addToGroup m u t := by
  induction m with
  | nil => simp at h
  | cons q rest ih =>
    obtain ⟨k, ts⟩ := q
    simp only [addToGroup]
    by_cases hk : k = u
    · rw [if_pos hk]
      rcases List.mem_cons.mp h with rfl | h2
      · exact absurd hk hne
      · exact List.mem_cons_of_mem _ h2
    · rw [if_neg hk]
      rcases List.mem_cons.mp h with rfl | h2
      · exact List.mem_cons_self _ _
      · exact List.mem_cons_of_mem _ (ih h2)

theorem addToGroup_keys_superset {m : List (String × List Tab)} {u : String}
    {t : Tab} {k : String} (h : k ∈ m.map Prod.fst) :
    k ∈ (addToGroup m u t).map Prod.fst := by
  rw [addToGroup_keys]
  split <;> simp [h]

theorem addToGroup_keys_self (m : List (String × List Tab)) (u : String) (t : Tab) :
    u ∈ (addToGroup m u t).map Prod.fst := by
  rw [addToGroup_keys]
  split
  · assumption
  · simp

/-- The groups of `groupByUrl` have pairwise-distinct url keys, each group
is exactly the subsequence of snapshot tabs carrying its url, and every
truthy url of the snapshot owns a group. -/
theorem groupByUrl_spec (tabs : List Tab) :
    ((groupByUrl tabs).map Prod.fst).Nodup
    ∧ (∀ p ∈ groupByUrl tabs, p.2 = tabs.filter (fun z => urlTruthy z = some p.1))
    ∧ (∀ t2 ∈ tabs, ∀ u2, urlTruthy t2 = some u2 →
        u2 ∈ (groupByUrl tabs).map Prod.fst) := by
  have main : ∀ (ts : List Tab) (processed : List Tab) (m : List (String × List Tab)),
      (m.map Prod.fst).Nodup →
      (∀ p ∈ m, p.2 = processed.filter (fun z => urlTruthy z = some p.1)) →
      (∀ t2 ∈ processed, ∀ u2, urlTruthy t2 = some u2 → u2 ∈ m.map Prod.fst) →
      (((ts.foldl (fun m t =>
          match urlTruthy t with
          | none => m
          | some u => addToGroup m u t) m).map Prod.fst).Nodup
       ∧ (∀ p ∈ ts.foldl (fun m t =>
            match urlTruthy t with
            | none => m
            | some u => addToGroup m u t) m,
           p.2 = (processed ++ ts).filter (fun z => urlTruthy z = some p.1))
       ∧ (∀ t2 ∈ processed ++ ts, ∀ u2, urlTruthy t2 = some u2 →
           u2 ∈ (ts.foldl (fun m t =>
             match urlTruthy t with
             | none => m
             | some u => addToGroup m u t) m).map Prod.fst)) := by
    intro ts
    induction ts with
    | nil =>
      intro processed m hnd hgr hcov
      simp only [List.foldl_nil, List.append_nil]
      exact ⟨hnd, hgr, hcov⟩
    | cons t ts ih =>
      intro processed m hnd hgr hcov
      rw [List.foldl_cons]
      cases hu : urlTruthy t with
      | none =>
        simp only [hu]
        have hgr2 : ∀ p ∈ m, p.2 = (processed ++ [t]).filter
            (fun z => urlTruthy z = some p.1) := by
          intro p hp
          rw [List.filter_append]
          simp [hgr p hp, hu]
        have hcov2 : ∀ t2 ∈ processed ++ [t], ∀ u2, urlTruthy t2 = some u2 →
            u2 ∈ m.map Prod.fst := by
          intro t2 ht2 u2 hu2
          rcases List.mem_append.mp ht2 with h2 | h2
          · exact hcov t2 h2 u2 hu2
          · rw [List.mem_singleton.mp h2, hu] at hu2
            exact absurd hu2 (by simp)
        have H := ih (processed ++ [t]) m hnd hgr2 hcov2
        refine ⟨H.1, ?_, ?_⟩
        · intro p hp
          have := H.2.1 p hp
          simpa using this
        · intro t2 ht2 u2 hu2
          exact H.2.2 t2 (by simpa using ht2) u2 hu2
      | some u =>
        simp only [hu]
        have hnd2 : ((addToGroup m u t).map Prod.fst).Nodup := by
          rw [addToGroup_keys]
          split
          · exact hnd
          · rename_i hnu
            simp [List.nodup_append, hnd, hnu]
        have hgr2 : ∀ p ∈ addToGroup m u t, p.2 = (processed ++ [t]).filter
            (fun z => urlTruthy z = some p.1) := by
          intro p hp
          by_cases hp1 : p.1 = u
          · obtain ⟨k, g⟩ := p
            simp only at hp1
            subst hp1
            rcases addToGroup_mem_eq hnd hp with ⟨hnu, rfl⟩ | ⟨g0, hg0, rfl⟩
            · have hfp : processed.filter (fun z => urlTruthy z = some k) = [] := by
                rw [List.filter_eq_nil_iff]
                intro z hz hcond
                exact hnu (hcov z hz k (by simpa using hcond))
              rw [List.filter_append]
              simp [hfp, hu]
            · have := hgr (k, g0) hg0
              rw [List.filter_append]
              simp only at this
              simp [← this, hu]
          · have hp2 := addToGroup_mem_ne hp hp1
            rw [List.filter_append]
            simp [hgr p hp2, hu, Ne.symm hp1]
        have hcov2 : ∀ t2 ∈ processed ++ [t], ∀ u2, urlTruthy t2 = some u2 →
            u2 ∈ (addToGroup m u t).map Prod.fst := by
          intro t2 ht2 u2 hu2
          rcases List.mem_append.mp ht2 with h2 | h2
          · exact addToGroup_keys_superset (hcov t2 h2 u2 hu2)
          · rw [List.mem_singleton.mp h2, hu] at hu2
            have : u2 = u := by simpa using hu2.symm
            rw [this]
            exact addToGroup_keys_self m u t
        have H := ih (processed ++ [t]) (addToGroup m u t) hnd2 hgr2 hcov2
        refine ⟨H.1, ?_, ?_⟩
        · intro p hp
          have := H.2.1 p hp
          simpa using this
        · intro t2 ht2 u2 hu2
          exact H.2.2 t2 (by simpa using ht2) u2 hu2
  have H := main tabs [] [] (by simp) (by simp) (by simp)
  simpa [groupByUrl] using H

theorem one_lt_length_of_two_mem {l : List Tab} {x y : Tab} (hx : x ∈ l)
    (hy : y ∈ l) (hne : x ≠ y) : 1 < l.length := by
  cases l with
  | nil => simp at hx
  | cons a rest =>
    cases rest with
    | nil =>
      simp only [List.mem_singleton] at hx hy
      exact absurd (hx.trans hy.symm) hne
    | cons b gs =>
      simp only [List.length_cons]
      omega

theorem dupPush_eq_some {z : Tab} {n : Nat} :
    dupPush z = some n ↔ z.id = some n ∧ n ≠ 0 ∧ z.active = false := by
  unfold dupPush
  cases hz : z.id with
  | none => simp
  | some k =>
    by_cases hk : k ≠ 0 ∧ z.active = false
    · simp only [if_pos hk, Option.some_inj]
      constructor
      · rintro rfl
        exact ⟨rfl, hk.1, hk.2⟩
      · rintro ⟨h1, -, -⟩
        exact h1
    · simp only [if_neg hk]
      refine ⟨fun h => absurd h (by simp), ?_⟩
      rintro ⟨h1, h2, h3⟩
      have h4 : k = n := by simpa using h1
      subst h4
      exact absurd ⟨h2, h3⟩ hk

theorem uniqueIds_count_le_one {tabs : List Tab} (hU : UniqueIds tabs) {t : Tab}
    (hsome : t.id.isSome = true) : tabs.count t ≤ 1 := by
  by_contra h
  push_neg at h
  have hsub : List.Sublist (List.replicate 2 t) tabs :=
    List.le_count_iff_replicate_sublist.mp (by omega)
  have hp : (List.replicate 2 t).Pairwise
      (fun a b : Tab => a.id.isSome = true → a.id ≠ b.id) :=
    List.Pairwise.sublist hsub hU
  rw [show List.replicate 2 t = [t, t] from rfl, List.pairwise_cons] at hp
  exact (hp.1 t (by simp)) hsome rfl

/-- C5 counterexample: two *active* tabs sharing one URL.  The group has
size two, so the claim demands the non-keeper member's id in the result;
the source filters out every active tab when pushing
(`if (tab.id && !tab.active)`), so the result is empty — neither id 1 nor
id 2 is returned. -/
theorem c5_counterexample :
    getDuplicateTabs
      [⟨some 1, some "https://example.com", true, some 100⟩,
       ⟨some 2, some "https://example.com", true, some 50⟩] = [] ∧
    (1 : Nat) ∉ getDuplicateTabs
      [⟨some 1, some "https://example.com", true, some 100⟩,
       ⟨some 2, some "https://example.com", true, some 50⟩] ∧
    (2 : Nat) ∉ getDuplicateTabs
      [⟨some 1, some "https://example.com", true, some 100⟩,
       ⟨some 2, some "https://example.com", true, some 50⟩] := by
  refine ⟨rfl, by decide, by decide⟩

/-- C5 (amended): `getDuplicateTabs` groups tabs by exact truthy url (tabs
without a url are never flagged); in every group of size at least two the
keeper is an active member if one exists, else the member with greatest
`lastAccessed` (missing treated as 0), and all other members' ids are
returned **except** members that are themselves active or lack a truthy
(present, nonzero) id.  Conjuncts: the claim's two concrete examples; every
flagged id belongs to an inactive tab with truthy id whose url group has
size at least two; every group member beaten by an active member or by a
greater `lastAccessed` (with truthy id, not active) is flagged; and, under
unique ids, a member strictly dominating its whole group (every other
same-url member inactive and strictly older) is never flagged. -/
theorem c5_getDuplicateTabs_spec :
    getDuplicateTabs
        [⟨some 1, some "u", false, some 100⟩, ⟨some 2, some "u", false, some 200⟩,
         ⟨some 3, some "u", false, some 150⟩] = [3, 1]
    ∧ getDuplicateTabs
        [⟨some 1, some "u", true, some 50⟩, ⟨some 2, some "u", false, some 200⟩]
        = [2]
    ∧ (∀ (tabs : List Tab) (tid : Nat), tid ∈ getDuplicateTabs tabs →
        ∃ t ∈ tabs, t.id = some tid ∧ tid ≠ 0 ∧ t.active = false ∧
          ∃ u, urlTruthy t = some u ∧
            1 < (tabs.filter (fun z => urlTruthy z = some u)).length)
    ∧ (∀ (tabs : List Tab) (t : Tab) (u : String) (tid : Nat) (t2 : Tab),
        t ∈ tabs → urlTruthy t = some u → t.active = false → t.id = some tid →
        tid ≠ 0 → t2 ∈ tabs → urlTruthy t2 = some u →
        (t2.active = true ∨ laOf t < laOf t2) → tid ∈ getDuplicateTabs tabs)
    ∧ (∀ (tabs : List Tab) (t : Tab) (u : String) (tid : Nat),
        UniqueIds tabs → t ∈ tabs → urlTruthy t = some u → t.id = some tid →
        (∀ t2 ∈ tabs, t2 ≠ t → urlTruthy t2 = some u →
          (t2.active = false ∧ laOf t2 < laOf t)) →
        tid ∉ getDuplicateTabs tabs) := by
  refine ⟨by decide, by decide, ?_, ?_, ?_⟩
  · intro tabs tid hc
    obtain ⟨p, hp, hlen, hmem⟩ := mem_getDuplicateTabs.mp hc
    obtain ⟨z, hz, hpush⟩ := List.mem_filterMap.mp hmem
    obtain ⟨hzid, htid0, hzact⟩ := dupPush_eq_some.mp hpush
    have hz3 : z ∈ p.2 := mem_sortTabs.mp (List.mem_of_mem_drop hz)
    have hgr := (groupByUrl_spec tabs).2.1 p hp
    rw [hgr] at hz3
    have hz4 := List.mem_filter.mp hz3
    refine ⟨z, hz4.1, hzid, htid0, hzact, p.1, by simpa using hz4.2, ?_⟩
    rw [← hgr]
    exact hlen
  · intro tabs t u tid t2 ht hurl hact hid htid0 ht2 hurl2 hbeats
    have hspec := groupByUrl_spec tabs
    obtain ⟨p, hp, hfst⟩ := List.mem_map.mp (hspec.2.2 t ht u hurl)
    have hgr := hspec.2.1 p hp
    rw [hfst] at hgr
    have htg : t ∈ p.2 := by
      rw [hgr]
      exact List.mem_filter.mpr ⟨ht, by simpa using hurl⟩
    have ht2g : t2 ∈ p.2 := by
      rw [hgr]
      exact List.mem_filter.mpr ⟨ht2, by simpa using hurl2⟩
    have hne : t2 ≠ t := by
      intro hEq
      rw [hEq] at hbeats
      rcases hbeats with h2 | h2
      · rw [hact] at h2
        exact absurd h2 (by simp)
      · exact absurd h2 (by simp)
    have hbeat : dupLt t2 t = true := by
      rcases hbeats with h2 | h2 <;> cases h2a : t2.active <;>
        simp_all [dupLt, laOf]
    have hlen : 1 < p.2.length := one_lt_length_of_two_mem ht2g htg hne
    cases hs : sortTabs dupLt p.2 with
    | nil =>
      have hm : t ∈ sortTabs dupLt p.2 := mem_sortTabs.mpr htg
      rw [hs] at hm
      simp at hm
    | cons hd rest =>
      have hmin := sortTabs_head_min dupLt dupLt_strict p.2 hd rest hs
      have htne : t ≠ hd := by
        intro hEq
        have hm := hmin t2 ht2g
        rw [← hEq, hbeat] at hm
        exact absurd hm (by simp)
      have htr : t ∈ rest := by
        have hm : t ∈ sortTabs dupLt p.2 := mem_sortTabs.mpr htg
        rw [hs] at hm
        rcases List.mem_cons.mp hm with h2 | h2
        · exact absurd h2 htne
        · exact h2
      refine mem_getDuplicateTabs.mpr ⟨p, hp, hlen, ?_⟩
      refine List.mem_filterMap.mpr ⟨t, ?_, dupPush_eq_some.mpr ⟨hid, htid0, hact⟩⟩
      rw [hs]
      simpa using htr
  · intro tabs t u tid hU ht hurl hid hmax hc
    obtain ⟨p, hp, hlen, hmem⟩ := mem_getDuplicateTabs.mp hc
    obtain ⟨z, hz, hpush⟩ := List.mem_filterMap.mp hmem
    obtain ⟨hzid, htid0, hzact⟩ := dupPush_eq_some.mp hpush
    have hz3 : z ∈ p.2 := mem_sortTabs.mp (List.mem_of_mem_drop hz)
    have hgr := (groupByUrl_spec tabs).2.1 p hp
    have hz4 := List.mem_filter.mp (hgr ▸ hz3)
    have hzt : z = t := by
      by_contra hne
      exact List.Pairwise.forall uniqueIds_symm hU hz4.1 ht hne (by simp [hzid])
        (by rw [hzid, hid])
    subst hzt
    have hpu : p.1 = u := by
      have h2 : urlTruthy z = some p.1 := by simpa using hz4.2
      rw [hurl] at h2
      exact (Option.some_inj.mp h2).symm
    cases hs : sortTabs dupLt p.2 with
    | nil =>
      have hm : z ∈ sortTabs dupLt p.2 := mem_sortTabs.mpr hz3
      rw [hs] at hm
      simp at hm
    | cons hd rest =>
      have hmin := sortTabs_head_min dupLt dupLt_strict p.2 hd rest hs
      have hdg : hd ∈ p.2 := by
        have hm : hd ∈ sortTabs dupLt p.2 := by
          rw [hs]
          simp
        exact mem_sortTabs.mp hm
      have hd4 := List.mem_filter.mp (hgr ▸ hdg)
      by_cases hdt : hd = z
      · subst hdt
        rw [hs] at hz
        simp only [List.drop_succ_cons, List.drop_zero] at hz
        have hcount_tabs : tabs.count hd ≤ 1 :=
          uniqueIds_count_le_one hU (by simp [hzid])
        have hcount_g : p.2.count hd ≤ 1 := by
          rw [hgr]
          exact le_trans (List.Sublist.count_le (List.filter_sublist tabs) hd)
            hcount_tabs
        have hperm : (sortTabs dupLt p.2).count hd = p.2.count hd :=
          List.Perm.count_eq (sortTabs_perm _ _) hd
        rw [hs, List.count_cons_self] at hperm
        have hpos : 0 < rest.count hd := List.count_pos_iff.mpr hz
        omega
      · have hud : urlTruthy hd = some u := by
          have h2 : urlTruthy hd = some p.1 := by simpa using hd4.2
          rw [hpu] at h2
          exact h2
        have hbm := hmax hd hd4.1 hdt hud
        have hbeat : dupLt z hd = true := by
          cases hta : z.active <;> simp_all [dupLt, laOf]
        have hm := hmin z hz3
        rw [hbeat] at hm
        exact absurd hm (by simp)

/-- Witness for `c5_getDuplicateTabs_spec`: its beaten-member conjunct
applied at the claim's active-keeper example — the inactive tab id 2 beaten
by the active tab id 1 is flagged. -/
theorem c5_witness :
    (2 : Nat) ∈ getDuplicateTabs
      [⟨some 1, some "https://example.com", true, some 50⟩,
       ⟨some 2, some "https://example.com", false, some 200⟩] :=
  c5_getDuplicateTabs_spec.2.2.2.1
    [⟨some 1, some "https://example.com", true, some 50⟩,
     ⟨some 2, some "https://example.com", false, some 200⟩]
    ⟨some 2, some "https://example.com", false, some 200⟩ "https://example.com" 2
    ⟨some 1, some "https://example.com", true, some 50⟩
    (by decide) (by decide) rfl rfl (by decide) (by decide) (by decide)
    (Or.inl rfl)

end TabAudit
